import Mathlib

/-!
# Thread error slot of SDL (`src/SDL_error.c`)

A shallow embedding of `SDL_SetError`, `SDL_GetError`, `SDL_ClearError` and
`SDL_OutOfMemory`, and the properties of the error facility proved over it.

* A `char *` is embedded as the list of bytes of the block it points to; the C
  string stored in a block is read by `c_str` (the bytes before the first NUL).
* The calling thread's storage cell is an `Option SDL_error` (`none`: the thread
  has no slot yet); operations pass it explicitly.
* What the surroundings decide at a call (whether a slot can be created, whether
  a reallocation is granted, the content of newly obtained bytes, the log
  priority) is the `Env` argument of the call.
* A format together with its arguments is embedded as the text it renders to;
  a null format pointer is `none`.
-/

namespace SDL

/-- Error classification of a slot: the three `SDL_ErrorCode` values used by `SDL_error.c`. -/
inductive SDL_ErrorCode where
  | SDL_ErrorCodeNone
  | SDL_ErrorCodeGeneric
  | SDL_ErrorCodeOutOfMemory
  deriving DecidableEq

open SDL_ErrorCode

/-- The string terminator byte. -/
def NUL : Char := Char.ofNat 0

/-- The C string stored at the start of a block: the bytes before the first terminator. -/
def c_str (mem : List Char) : List Char :=
  mem.takeWhile (fun c => !decide (c = NUL))

/-- A block holds a terminated string when a terminator occurs inside it. -/
def terminated (mem : List Char) : Prop := NUL ∈ mem

instance (mem : List Char) : Decidable (terminated mem) := by
  unfold terminated; infer_instance

/-- The error slot, with the fields `SDL_error.c` uses: `error` (classification),
`str` (the bytes of the buffer `str` points to), `len` (allocated size of the buffer),
`realloc_func` (`true` when the function pointer is not null). -/
structure SDL_error where
  error : SDL_ErrorCode
  str : List Char
  len : Nat
  realloc_func : Bool
  deriving DecidableEq

/-- What the surroundings decide at one call. -/
structure Env where
  /-- the slot get-or-create hands out when the thread has none; `none`: creation fails -/
  fresh : Option SDL_error
  /-- whether a call of the reallocation function made now succeeds -/
  grant : Bool
  /-- content of bytes of a reallocated block beyond the old block -/
  fill : Nat → Char
  /-- whether `SDL_GetLogPriority(SDL_LOG_CATEGORY_ERROR) <= SDL_LOG_PRIORITY_DEBUG` -/
  debug : Bool

/-- Store `src` at the start of the block `mem`; the block keeps its size. -/
def store (mem src : List Char) : List Char :=
  (src ++ mem.drop src.length).take mem.length

/-- Modelled from the spec: `SDL_vsnprintf`, whose code is not among the sources. A bounded
string-format write: with `out` the full rendered text, it writes at most `maxlen - 1`
characters plus a terminator into `text` (nothing when `maxlen` is 0) and reports how many
characters the full, unbounded message needs. -/
def SDL_vsnprintf (text : List Char) (maxlen : Nat) (out : List Char) : List Char × Int :=
  if maxlen = 0 then (text, (out.length : Int))
  else (store text (out.take (maxlen - 1) ++ [NUL]), (out.length : Int))

/-- Modelled from the spec: a call `error->realloc_func(str, size)`. Growth either fails
(`none`, the old block untouched) or gives a block of `size` bytes that preserves the old
content; the new bytes are whatever the surroundings put there. -/
def realloc_call (env : Env) (mem : List Char) (size : Nat) : Option (List Char) :=
  if env.grant then some ((List.range size).map fun i => mem.getD i (env.fill i)) else none

/-- Modelled from the spec: `SDL_GetErrBuf(create)`, the per-thread storage provider, whose code
is not among the sources. It returns the calling thread's slot if it exists; otherwise with
`create` it hands out a new slot `fresh` (creation may fail: null), and without `create` it
returns null. -/
def SDL_GetErrBuf (fresh : Option SDL_error) (tls : Option SDL_error) (create : Bool) :
    Option SDL_error :=
  match tls with
  | some e => some e
  | none => if create then fresh else none

/-- Outcome of a completed `SDL_SetError`: the thread's cell, the returned boolean, and the
line sent to the debug log (if any). -/
structure SetErrorResult where
  tls : Option SDL_error
  ret : Bool
  log : Option (List Char)
  deriving DecidableEq

/-- `SDL_SetError(fmt, ...)`. `fmt = none` is a null format pointer, `fmt = some m` a format
whose rendering with the given arguments is `m`. The result is `none` when the call
dereferences a null slot pointer (line 35 has no null check). -/
def SDL_SetError (env : Env) (fmt : Option (List Char)) (tls : Option SDL_error) :
    Option SetErrorResult :=
  match fmt with
  | none => some { tls := tls, ret := false, log := none }
  | some m =>
    match SDL_GetErrBuf env.fresh tls true with
    | none => none
    | some error =>
      let error := { error with error := SDL_ErrorCodeGeneric }
      let r := SDL_vsnprintf error.str error.len m
      let error := { error with str := r.1 }
      let result := r.2
      let error :=
        if 0 ≤ result ∧ error.len ≤ result.toNat ∧ error.realloc_func = true then
          let len := result.toNat + 1
          match realloc_call env error.str len with
          | some str =>
            let error := { error with str := str, len := len }
            { error with str := (SDL_vsnprintf error.str error.len m).1 }
          | none => error
        else error
      some { tls := some error, ret := false,
             log := if env.debug then some (c_str error.str) else none }

/-- `SDL_GetError()`: the block the returned pointer points to. The two literals are the
blocks of `""` and `"Out of memory"`. -/
def SDL_GetError (tls : Option SDL_error) : List Char :=
  match SDL_GetErrBuf none tls false with
  | none => [NUL]
  | some error =>
    match error.error with
    | SDL_ErrorCodeGeneric => error.str
    | SDL_ErrorCodeOutOfMemory => "Out of memory".toList ++ [NUL]
    | _ => [NUL]

/-- `SDL_ClearError()`: the thread's cell afterwards and the returned boolean. -/
def SDL_ClearError (tls : Option SDL_error) : Option SDL_error × Bool :=
  match SDL_GetErrBuf none tls false with
  | some error => (some { error with error := SDL_ErrorCodeNone }, true)
  | none => (tls, true)

/-- `SDL_OutOfMemory()`: the thread's cell afterwards and the returned boolean. -/
def SDL_OutOfMemory (env : Env) (tls : Option SDL_error) : Option SDL_error × Bool :=
  match SDL_GetErrBuf env.fresh tls true with
  | some error => (some { error with error := SDL_ErrorCodeOutOfMemory }, false)
  | none => (tls, false)

/-- The text a caller reads from the pointer `SDL_GetError()` returns. -/
def errorText (tls : Option SDL_error) : List Char := c_str (SDL_GetError tls)


/-- The four operations of the facility, as a caller issues them. -/
inductive Op where
  | SetError (fmt : Option (List Char))
  | GetError
  | ClearError
  | OutOfMemory
  deriving DecidableEq

/-- The calling thread's cell after one operation; `none` when the operation dereferences
a null slot pointer. `SDL_GetError` only reads. -/
def Op.exec (env : Env) (op : Op) (tls : Option SDL_error) : Option (Option SDL_error) :=
  match op with
  | Op.SetError fmt => (SDL_SetError env fmt tls).map fun r => r.tls
  | Op.GetError => some tls
  | Op.ClearError => some (SDL_ClearError tls).1
  | Op.OutOfMemory => some (SDL_OutOfMemory env tls).1

/-- A sequence of operations of one thread, each with what the surroundings decide at it. -/
def execAll : List (Env × Op) → Option SDL_error → Option (Option SDL_error)
  | [], tls => some tls
  | (env, op) :: rest, tls =>
    match op.exec env tls with
    | none => none
    | some tls1 => execAll rest tls1

/-- The state machine as the specification lists it: `None → Generic` via SetError,
`None|Generic → OutOfMemory` via OutOfMemory, `Generic|OutOfMemory → None` via ClearError. -/
def listedTransition : SDL_ErrorCode → Op → SDL_ErrorCode → Prop
  | SDL_ErrorCodeNone, Op.SetError _, SDL_ErrorCodeGeneric => True
  | SDL_ErrorCodeNone, Op.OutOfMemory, SDL_ErrorCodeOutOfMemory => True
  | SDL_ErrorCodeGeneric, Op.OutOfMemory, SDL_ErrorCodeOutOfMemory => True
  | SDL_ErrorCodeGeneric, Op.ClearError, SDL_ErrorCodeNone => True
  | SDL_ErrorCodeOutOfMemory, Op.ClearError, SDL_ErrorCodeNone => True
  | _, _, _ => False

/-- The state machine the code implements: the listed transitions, and in addition
`OutOfMemory → Generic` via SetError with a non-null format. -/
def codeTransition : SDL_ErrorCode → Op → SDL_ErrorCode → Prop
  | SDL_ErrorCodeNone, Op.SetError (some _), SDL_ErrorCodeGeneric => True
  | SDL_ErrorCodeOutOfMemory, Op.SetError (some _), SDL_ErrorCodeGeneric => True
  | SDL_ErrorCodeNone, Op.OutOfMemory, SDL_ErrorCodeOutOfMemory => True
  | SDL_ErrorCodeGeneric, Op.OutOfMemory, SDL_ErrorCodeOutOfMemory => True
  | SDL_ErrorCodeGeneric, Op.ClearError, SDL_ErrorCodeNone => True
  | SDL_ErrorCodeOutOfMemory, Op.ClearError, SDL_ErrorCodeNone => True
  | _, _, _ => False

/-- Shape of a slot in use: the buffer has `len` bytes, `len` is at least 1, and under the
Generic classification the buffer holds a terminated string. -/
def SlotOk (e : SDL_error) : Prop :=
  e.str.length = e.len ∧ 1 ≤ e.len ∧ (e.error = SDL_ErrorCodeGeneric → terminated e.str)

/-- Modelled from the spec: the text the conversion `%d` renders for an integer argument
(decimal digits, a minus sign in front of a negative number); the formatter's code is not among
the sources. -/
def render_d : Int → List Char
  | Int.ofNat n => Nat.toDigits 10 n
  | Int.negSucc n => '-' :: Nat.toDigits 10 (n + 1)

/-- Modelled from the spec: the rendering of the format `"thread-%d"` with the argument `id`. -/
def render_thread_d (id : Int) : List Char := "thread-".toList ++ render_d id

/-- Modelled from the spec: the storage of the per-thread storage provider, a map from thread
identity to that thread's cell (§9: "an explicit per-thread storage map"). -/
abbrev Threads := Nat → Option SDL_error

/-- One operation issued by thread `tid`, with what the surroundings decide at it. -/
structure Event where
  tid : Nat
  env : Env
  op : Op

/-- Modelled from the spec: thread `ev.tid` performs `ev.op`; the provider hands the operation
the cell of the calling thread and nothing else. `none`: the process faults. -/
def stepThread (ev : Event) (M : Threads) : Option Threads :=
  match ev.op.exec ev.env (M ev.tid) with
  | none => none
  | some cell => some fun u => if u = ev.tid then cell else M u

/-- An interleaving of the operations of several threads, run in order. -/
def runThreads : List Event → Threads → Option Threads
  | [], M => some M
  | ev :: rest, M =>
    match stepThread ev M with
    | none => none
    | some M1 => runThreads rest M1

/-- The operations of thread `t` in an interleaving, in their order. -/
def ownOps (t : Nat) (evs : List Event) : List (Env × Op) :=
  (evs.filter fun ev => decide (ev.tid = t)).map fun ev => (ev.env, ev.op)

/-- At a call of `SDL_SetError` with a format rendering to `m`, the calling thread's slot
exists or can be created, its buffer has `len` bytes, and `m` fits the buffer or the
reallocation succeeds. -/
def CanHold (env : Env) (cell : Option SDL_error) (m : List Char) : Prop :=
  match SDL_GetErrBuf env.fresh cell true with
  | none => False
  | some e =>
    e.str.length = e.len ∧ (m.length < e.len ∨ (e.realloc_func = true ∧ env.grant = true))

/-- Along an interleaving, every call of `SDL_SetError` with a non-null format can hold its
message (`CanHold`) in the state in which it is made. -/
def Admissible : List Event → Threads → Prop
  | [], _ => True
  | ev :: rest, M =>
    (∀ m, ev.op = Op.SetError (some m) → CanHold ev.env (M ev.tid) m) ∧
      match stepThread ev M with
      | none => True
      | some M1 => Admissible rest M1

/-! ## Auxiliary facts about blocks and strings -/

theorem c_str_append_nul (m rest : List Char) (hm : ∀ c ∈ m, c ≠ NUL) :
    c_str (m ++ NUL :: rest) = m := by
  induction m with
  | nil => simp [c_str]
  | cons a t ih =>
    have ha : (!decide (a = NUL)) = true := by simpa using hm a (by simp)
    have ih2 := ih (fun c hc => hm c (by simp [hc]))
    unfold c_str at ih2 ⊢
    simp only [List.cons_append, List.takeWhile_cons, ha, ih2, if_true]

theorem store_eq (mem src : List Char) (h : src.length ≤ mem.length) :
    store mem src = src ++ mem.drop src.length := by
  unfold store
  apply List.take_of_length_le
  simp
  omega

theorem vsnprintf_fits (text m : List Char) (maxlen : Nat) (hwf : text.length = maxlen)
    (h : m.length < maxlen) :
    SDL_vsnprintf text maxlen m = (m ++ NUL :: text.drop (m.length + 1), (m.length : Int)) := by
  have h0 : maxlen ≠ 0 := by omega
  have ht : m.take (maxlen - 1) = m := List.take_of_length_le (by omega)
  simp only [SDL_vsnprintf, h0, if_false, ht]
  rw [store_eq _ _ (by simp; omega)]
  simp

theorem vsnprintf_cut (text m : List Char) (maxlen : Nat) (hwf : text.length = maxlen)
    (h1 : 1 ≤ maxlen) (h : maxlen ≤ m.length) :
    SDL_vsnprintf text maxlen m = (m.take (maxlen - 1) ++ [NUL], (m.length : Int)) := by
  have h0 : maxlen ≠ 0 := by omega
  have hl : (m.take (maxlen - 1) ++ [NUL]).length = maxlen := by
    simp [List.length_take]; omega
  simp only [SDL_vsnprintf, h0, if_false]
  rw [store_eq _ _ (by rw [hl, hwf]), hl, List.drop_of_length_le (by omega)]
  simp

theorem realloc_call_length (env : Env) (mem b : List Char) (size : Nat)
    (h : realloc_call env mem size = some b) : b.length = size := by
  unfold realloc_call at h
  split at h
  · injection h with h; subst h; simp
  · cases h

theorem vsnprintf_snd (text m : List Char) (maxlen : Nat) :
    (SDL_vsnprintf text maxlen m).2 = (m.length : Int) := by
  unfold SDL_vsnprintf
  split <;> rfl

theorem vsnprintf_length (text m : List Char) (maxlen : Nat) :
    (SDL_vsnprintf text maxlen m).1.length = text.length := by
  unfold SDL_vsnprintf store
  split
  · rfl
  · simp
    omega

/-- `SDL_SetError` on an existing slot when the message fits or the growth fails: the slot is
rewritten in place. -/
theorem setError_in_place (env : Env) (e : SDL_error) (m : List Char)
    (h : m.length < e.len ∨ e.realloc_func = false ∨ env.grant = false) :
    SDL_SetError env (some m) (some e) =
      some { tls := some { e with error := SDL_ErrorCodeGeneric,
                                  str := (SDL_vsnprintf e.str e.len m).1 },
             ret := false,
             log := if env.debug then some (c_str (SDL_vsnprintf e.str e.len m).1) else none } := by
  simp only [SDL_SetError, SDL_GetErrBuf, vsnprintf_snd, Int.toNat_ofNat, realloc_call]
  rcases h with h | h | h
  · have h2 : ¬ e.len ≤ m.length := by omega
    simp [h2]
  · simp [h]
  · simp [h]

/-- `SDL_SetError` on an existing slot when the message does not fit and the growth succeeds:
the buffer is replaced by a block of `length m + 1` bytes holding the whole message. -/
theorem setError_grown (env : Env) (e : SDL_error) (m : List Char)
    (hlen : e.len ≤ m.length) (hf : e.realloc_func = true) (hg : env.grant = true) :
    SDL_SetError env (some m) (some e) =
      some { tls := some { e with error := SDL_ErrorCodeGeneric,
                                  str := m ++ [NUL], len := m.length + 1 },
             ret := false,
             log := if env.debug then some (c_str (m ++ [NUL])) else none } := by
  have hb : ∀ t : List Char,
      ((List.range (m.length + 1)).map fun i => t.getD i (env.fill i)).length = m.length + 1 := by
    intro t; simp
  have hw : ∀ t : List Char,
      (SDL_vsnprintf ((List.range (m.length + 1)).map fun i => t.getD i (env.fill i))
        (m.length + 1) m).1 = m ++ [NUL] := by
    intro t
    rw [vsnprintf_fits _ _ _ (hb t) (by omega)]
    simp
  simp only [SDL_SetError, SDL_GetErrBuf, vsnprintf_snd, Int.toNat_ofNat, realloc_call, hg,
    if_true, hf, hlen, and_self, and_true, Int.natCast_nonneg, hw]

theorem vsnprintf_terminated (text m : List Char) (maxlen : Nat) (hwf : text.length = maxlen)
    (h1 : 1 ≤ maxlen) : terminated (SDL_vsnprintf text maxlen m).1 := by
  unfold terminated
  by_cases h : m.length < maxlen
  · rw [vsnprintf_fits _ _ _ hwf h]; simp
  · rw [vsnprintf_cut _ _ _ hwf h1 (by omega)]; simp

theorem c_str_length_lt (mem : List Char) (h : terminated mem) :
    (c_str mem).length < mem.length := by
  unfold terminated at h
  induction mem with
  | nil => simp at h
  | cons a t ih =>
    unfold c_str at ih ⊢
    rw [List.takeWhile_cons]
    by_cases ha : a = NUL
    · simp [ha]
    · have ht : NUL ∈ t := by
        rcases List.mem_cons.mp h with h | h
        · exact absurd h.symm ha
        · exact h
      have := ih ht
      simp [ha]
      omega

theorem c_str_literal_oom : c_str ("Out of memory".toList ++ [NUL]) = "Out of memory".toList := by
  decide

theorem c_str_literal_empty : c_str [NUL] = [] := by
  decide

/-- One operation on an existing slot in use leaves a slot in use. -/
theorem exec_slotOk (env : Env) (op : Op) (e : SDL_error) (h : SlotOk e) :
    ∃ e1, op.exec env (some e) = some (some e1) ∧ SlotOk e1 := by
  obtain ⟨hwf, hcap, hterm⟩ := h
  cases op with
  | SetError fmt =>
    cases fmt with
    | none => exact ⟨e, rfl, hwf, hcap, hterm⟩
    | some m =>
      by_cases hg : e.len ≤ m.length ∧ e.realloc_func = true ∧ env.grant = true
      · refine ⟨{ e with error := SDL_ErrorCodeGeneric, str := m ++ [NUL], len := m.length + 1 },
          by rw [Op.exec, setError_grown env e m hg.1 hg.2.1 hg.2.2]; rfl, ?_, ?_, ?_⟩
        · simp
        · simp
        · intro _; simp [terminated]
      · have hin : m.length < e.len ∨ e.realloc_func = false ∨ env.grant = false := by
          by_cases h1 : m.length < e.len
          · exact Or.inl h1
          · by_cases h2 : e.realloc_func = true
            · by_cases h3 : env.grant = true
              · exact absurd ⟨by omega, h2, h3⟩ hg
              · exact Or.inr (Or.inr (by simpa using h3))
            · exact Or.inr (Or.inl (by simpa using h2))
        refine ⟨{ e with error := SDL_ErrorCodeGeneric, str := (SDL_vsnprintf e.str e.len m).1 },
          by rw [Op.exec, setError_in_place env e m hin]; rfl, ?_, ?_, ?_⟩
        · simp [vsnprintf_length, hwf]
        · exact hcap
        · intro _; exact vsnprintf_terminated _ _ _ hwf hcap
  | GetError => exact ⟨e, rfl, hwf, hcap, hterm⟩
  | ClearError =>
    exact ⟨{ e with error := SDL_ErrorCodeNone }, rfl, hwf, hcap, fun h => by cases h⟩
  | OutOfMemory =>
    exact ⟨{ e with error := SDL_ErrorCodeOutOfMemory }, rfl, hwf, hcap, fun h => by cases h⟩

theorem execAll_slotOk (ops : List (Env × Op)) (e : SDL_error) (h : SlotOk e) :
    ∃ e1, execAll ops (some e) = some (some e1) ∧ SlotOk e1 := by
  induction ops generalizing e with
  | nil => exact ⟨e, rfl, h⟩
  | cons a rest ih =>
    obtain ⟨env, op⟩ := a
    obtain ⟨e1, h1, hok1⟩ := exec_slotOk env op e h
    obtain ⟨e2, h2, hok2⟩ := ih e1 hok1
    exact ⟨e2, by simp only [execAll, h1, h2], hok2⟩

/-- `SDL_SetError` with a non-null format on an existing slot always completes: the slot is
Generic afterwards, it has grown to `length m + 1` when the message did not fit and the
reallocation succeeded, and kept its capacity otherwise. -/
theorem setError_existing (env : Env) (e : SDL_error) (m : List Char) :
    ∃ e1, (Op.SetError (some m)).exec env (some e) = some (some e1) ∧
      e1.error = SDL_ErrorCodeGeneric ∧
      ((e.len ≤ m.length ∧ e.realloc_func = true ∧ env.grant = true) →
        e1.len = m.length + 1) ∧
      (¬ (e.len ≤ m.length ∧ e.realloc_func = true ∧ env.grant = true) → e1.len = e.len) := by
  by_cases hg : e.len ≤ m.length ∧ e.realloc_func = true ∧ env.grant = true
  · exact ⟨{ e with error := SDL_ErrorCodeGeneric, str := m ++ [NUL], len := m.length + 1 },
      by rw [Op.exec, setError_grown env e m hg.1 hg.2.1 hg.2.2]; rfl, rfl, fun _ => rfl,
      fun h => absurd hg h⟩
  · have hin : m.length < e.len ∨ e.realloc_func = false ∨ env.grant = false := by
      by_cases h1 : m.length < e.len
      · exact Or.inl h1
      · by_cases h2 : e.realloc_func = true
        · by_cases h3 : env.grant = true
          · exact absurd ⟨by omega, h2, h3⟩ hg
          · exact Or.inr (Or.inr (by simpa using h3))
        · exact Or.inr (Or.inl (by simpa using h2))
    exact ⟨{ e with error := SDL_ErrorCodeGeneric, str := (SDL_vsnprintf e.str e.len m).1 },
      by rw [Op.exec, setError_in_place env e m hin]; rfl, rfl, fun h => absurd h hg,
      fun _ => rfl⟩

/-! ### Decimal rendering -/

theorem digitChar_facts (k : Nat) (h : k < 10) :
    Nat.digitChar k ≠ NUL ∧ Nat.digitChar k ≠ '-' ∧ (Nat.digitChar k).toNat - 48 = k := by
  interval_cases k <;> decide

theorem toDigitsCore_mem (fuel : Nat) : ∀ (n : Nat) (ds : List Char) (c : Char),
    c ∈ Nat.toDigitsCore 10 fuel n ds → c ∈ ds ∨ ∃ k, k < 10 ∧ c = Nat.digitChar k := by
  induction fuel with
  | zero => intro n ds c h; exact Or.inl (by simpa [Nat.toDigitsCore] using h)
  | succ fuel ih =>
    intro n ds c h
    have hk : n % 10 < 10 := Nat.mod_lt _ (by decide)
    simp only [Nat.toDigitsCore] at h
    split at h
    · rcases List.mem_cons.mp h with h | h
      · exact Or.inr ⟨n % 10, hk, h⟩
      · exact Or.inl h
    · rcases ih _ _ _ h with h | h
      · rcases List.mem_cons.mp h with h | h
        · exact Or.inr ⟨n % 10, hk, h⟩
        · exact Or.inl h
      · exact Or.inr h

theorem toDigitsCore_value (fuel : Nat) : ∀ (n : Nat) (ds : List Char), n < fuel →
    (Nat.toDigitsCore 10 fuel n ds).foldl (fun acc c => 10 * acc + (c.toNat - 48)) 0
      = ds.foldl (fun acc c => 10 * acc + (c.toNat - 48)) n := by
  induction fuel with
  | zero => intro n ds h; omega
  | succ fuel ih =>
    intro n ds h
    have hk : n % 10 < 10 := Nat.mod_lt _ (by decide)
    have hv := (digitChar_facts (n % 10) hk).2.2
    simp only [Nat.toDigitsCore]
    split
    · rename_i h0
      simp only [List.foldl_cons, hv]
      congr 1
      omega
    · rename_i h0
      rw [ih (n / 10) _ (by omega)]
      simp only [List.foldl_cons, hv]
      congr 1
      omega

theorem toDigits_injective (a b : Nat) (h : Nat.toDigits 10 a = Nat.toDigits 10 b) : a = b := by
  have ha := toDigitsCore_value (a + 1) a [] (by omega)
  have hb := toDigitsCore_value (b + 1) b [] (by omega)
  unfold Nat.toDigits at h
  rw [h] at ha
  simpa using ha.symm.trans hb

theorem toDigits_chars (n : Nat) (c : Char) (h : c ∈ Nat.toDigits 10 n) :
    c ≠ NUL ∧ c ≠ '-' := by
  rcases toDigitsCore_mem _ _ _ _ h with h | ⟨k, hk, rfl⟩
  · simp at h
  · exact ⟨(digitChar_facts k hk).1, (digitChar_facts k hk).2.1⟩

theorem render_d_injective (a b : Int) (h : render_d a = render_d b) : a = b := by
  cases a with
  | ofNat x =>
    cases b with
    | ofNat y => simp only [render_d] at h; rw [toDigits_injective x y h]
    | negSucc y =>
      simp only [render_d] at h
      have : '-' ∈ Nat.toDigits 10 x := by rw [h]; simp
      exact absurd rfl (toDigits_chars x _ this).2
  | negSucc x =>
    cases b with
    | ofNat y =>
      simp only [render_d] at h
      have : '-' ∈ Nat.toDigits 10 y := by rw [← h]; simp
      exact absurd rfl (toDigits_chars y _ this).2
    | negSucc y =>
      simp only [render_d, List.cons.injEq, true_and] at h
      have := toDigits_injective _ _ h
      have hxy : x = y := by omega
      rw [hxy]

theorem render_thread_d_injective (a b : Int) (h : render_thread_d a = render_thread_d b) :
    a = b :=
  render_d_injective a b (List.append_cancel_left h)

theorem render_thread_d_chars (a : Int) : ∀ c ∈ render_thread_d a, c ≠ NUL := by
  intro c hc
  rcases List.mem_append.mp hc with h | h
  · have hlit : ∀ c ∈ "thread-".toList, c ≠ NUL := by decide
    exact hlit c h
  · cases a with
    | ofNat x => exact (toDigits_chars x c h).1
    | negSucc x =>
      rcases List.mem_cons.mp h with h | h
      · rw [h]; decide
      · exact (toDigits_chars _ c h).1

/-! ### One thread among many -/

/-- A call of `SDL_SetError` that can hold its NUL-free message completes, and the text read
back is the whole message. -/
theorem setError_canHold (env : Env) (m : List Char) (cell : Option SDL_error)
    (hm : ∀ c ∈ m, c ≠ NUL) (hc : CanHold env cell m) :
    ∃ cell1, (Op.SetError (some m)).exec env cell = some cell1 ∧ errorText cell1 = m := by
  unfold CanHold at hc
  cases hb : SDL_GetErrBuf env.fresh cell true with
  | none => simp [hb] at hc
  | some e =>
    simp only [hb] at hc
    obtain ⟨hwf, hfit⟩ := hc
    have heq : SDL_SetError env (some m) cell = SDL_SetError env (some m) (some e) := by
      cases cell with
      | some e0 =>
        simp only [SDL_GetErrBuf] at hb
        injection hb with hb
        rw [hb]
      | none =>
        simp only [SDL_GetErrBuf, if_true] at hb
        simp [SDL_SetError, SDL_GetErrBuf, hb]
    by_cases h : m.length < e.len
    · refine ⟨some { e with error := SDL_ErrorCodeGeneric,
                              str := (SDL_vsnprintf e.str e.len m).1 },
        by rw [Op.exec, heq, setError_in_place env e m (Or.inl h)]; rfl, ?_⟩
      simp only [errorText, SDL_GetError, SDL_GetErrBuf, vsnprintf_fits _ _ _ hwf h]
      exact c_str_append_nul m _ hm
    · have hg : e.realloc_func = true ∧ env.grant = true := hfit.resolve_left h
      refine ⟨some { e with error := SDL_ErrorCodeGeneric, str := m ++ [NUL],
                              len := m.length + 1 },
        by rw [Op.exec, heq, setError_grown env e m (by omega) hg.1 hg.2]; rfl, ?_⟩
      simp only [errorText, SDL_GetError, SDL_GetErrBuf]
      exact c_str_append_nul m [] hm

/-- An operation completes when, if it is `SDL_SetError` with a non-null format, the slot
exists or can be created. -/
theorem exec_completes (env : Env) (op : Op) (cell : Option SDL_error)
    (h : ∀ m, op = Op.SetError (some m) → CanHold env cell m) :
    ∃ cell1, op.exec env cell = some cell1 := by
  cases op with
  | SetError fmt =>
    cases fmt with
    | none => exact ⟨cell, rfl⟩
    | some m =>
      have hc := h m rfl
      unfold CanHold at hc
      cases hb : SDL_GetErrBuf env.fresh cell true with
      | none => simp [hb] at hc
      | some e =>
        have heq : SDL_SetError env (some m) cell = SDL_SetError env (some m) (some e) := by
          cases cell with
          | some e0 =>
            simp only [SDL_GetErrBuf] at hb
            injection hb with hb
            rw [hb]
          | none =>
            simp only [SDL_GetErrBuf, if_true] at hb
            simp [SDL_SetError, SDL_GetErrBuf, hb]
        obtain ⟨e1, h1, -⟩ := setError_existing env e m
        refine ⟨some e1, ?_⟩
        rw [Op.exec] at h1 ⊢
        rw [heq]
        exact h1
  | GetError => exact ⟨_, rfl⟩
  | ClearError => exact ⟨_, rfl⟩
  | OutOfMemory => exact ⟨_, rfl⟩

theorem ownOps_cons_self (ev : Event) (rest : List Event) :
    ownOps ev.tid (ev :: rest) = (ev.env, ev.op) :: ownOps ev.tid rest := by
  simp [ownOps]

theorem ownOps_cons_other (ev : Event) (rest : List Event) (t : Nat) (h : t ≠ ev.tid) :
    ownOps t (ev :: rest) = ownOps t rest := by
  have : ¬ ev.tid = t := fun h1 => h h1.symm
  simp [ownOps, this]

/-- An operation of one thread leaves the cell of every other thread as it was. -/
theorem stepThread_frame (ev : Event) (M M1 : Threads) (h : stepThread ev M = some M1)
    (u : Nat) (hu : u ≠ ev.tid) : M1 u = M u := by
  unfold stepThread at h
  split at h
  · cases h
  · injection h with h
    subst h
    simp [hu]

/-- After an interleaving, the cell of each thread is what that thread's own operations, run
alone on its initial cell, give. -/
theorem runThreads_own (evs : List Event) : ∀ (M M1 : Threads),
    runThreads evs M = some M1 → ∀ t, execAll (ownOps t evs) (M t) = some (M1 t) := by
  induction evs with
  | nil =>
    intro M M1 h t
    simp only [runThreads] at h
    injection h with h
    subst h
    rfl
  | cons ev rest ih =>
    intro M M1 h t
    simp only [runThreads] at h
    cases hs : stepThread ev M with
    | none => simp [hs] at h
    | some M2 =>
      simp only [hs] at h
      have hrec := ih M2 M1 h t
      unfold stepThread at hs
      cases hx : ev.op.exec ev.env (M ev.tid) with
      | none => simp [hx] at hs
      | some cell =>
        simp only [hx] at hs
        injection hs with hs
        subst hs
        by_cases ht : t = ev.tid
        · subst ht
          rw [ownOps_cons_self]
          simp only [execAll, hx]
          simpa using hrec
        · rw [ownOps_cons_other ev rest t ht]
          simpa [ht] using hrec

/-- When the own operations of every thread complete, the interleaving completes, with
these cells. -/
theorem runThreads_of_own (evs : List Event) : ∀ (M cells : Threads),
    (∀ t, execAll (ownOps t evs) (M t) = some (cells t)) → runThreads evs M = some cells := by
  induction evs with
  | nil =>
    intro M cells h
    have : M = cells := funext fun t => by
      have := h t
      simp only [ownOps, List.filter_nil, List.map_nil, execAll] at this
      injection this
    rw [this]
    rfl
  | cons ev rest ih =>
    intro M cells h
    have hself := h ev.tid
    rw [ownOps_cons_self] at hself
    simp only [execAll] at hself
    cases hx : ev.op.exec ev.env (M ev.tid) with
    | none => simp [hx] at hself
    | some cell =>
      simp only [hx] at hself
      have hstep : stepThread ev M = some fun u => if u = ev.tid then cell else M u := by
        simp only [stepThread, hx]
      simp only [runThreads, hstep]
      apply ih
      intro t
      by_cases ht : t = ev.tid
      · subst ht
        simpa using hself
      · have := h t
        rw [ownOps_cons_other ev rest t ht] at this
        simpa [ht] using this

/-- An admissible interleaving completes. -/
theorem runThreads_completes (evs : List Event) : ∀ M : Threads, Admissible evs M →
    ∃ M1, runThreads evs M = some M1 := by
  induction evs with
  | nil => intro M _; exact ⟨M, rfl⟩
  | cons ev rest ih =>
    intro M h
    obtain ⟨hset, hrest⟩ := h
    obtain ⟨cell1, hcell⟩ := exec_completes ev.env ev.op (M ev.tid) hset
    have hstep : stepThread ev M = some fun u => if u = ev.tid then cell1 else M u := by
      simp only [stepThread, hcell]
    simp only [hstep] at hrest
    obtain ⟨M1, hM1⟩ := ih _ hrest
    exact ⟨M1, by simp only [runThreads, hstep, hM1]⟩

/-- In an admissible interleaving in which thread `T` only sets the NUL-free message `m` and
reads (the other threads do anything), once `T` has set the message the text it reads back
at the end is `m`. -/
theorem own_text_after (T : Nat) (m : List Char) (hm : ∀ c ∈ m, c ≠ NUL) (evs : List Event) :
    ∀ M M1 : Threads, runThreads evs M = some M1 →
    (∀ ev ∈ evs, ev.tid = T → ev.op = Op.SetError (some m) ∨ ev.op = Op.GetError) →
    Admissible evs M →
    (errorText (M T) = m ∨ ∃ ev ∈ evs, ev.tid = T ∧ ev.op = Op.SetError (some m)) →
    errorText (M1 T) = m := by
  induction evs with
  | nil =>
    intro M M1 hrun _ _ h
    simp only [runThreads] at hrun
    injection hrun with hrun
    subst hrun
    rcases h with h | ⟨ev, hev, -⟩
    · exact h
    · simp at hev
  | cons ev rest ih =>
    intro M M1 hrun hkind hadm h
    obtain ⟨hset, hrest⟩ := hadm
    simp only [runThreads] at hrun
    cases hs : stepThread ev M with
    | none => simp [hs] at hrun
    | some M2 =>
      simp only [hs] at hrun hrest
      refine ih M2 M1 hrun (fun x hx => hkind x (List.mem_cons_of_mem _ hx)) hrest ?_
      have hframe := stepThread_frame ev M M2 hs
      unfold stepThread at hs
      cases hx : ev.op.exec ev.env (M ev.tid) with
      | none => simp [hx] at hs
      | some cell =>
        simp only [hx] at hs
        injection hs with hs
        by_cases ht : ev.tid = T
        · have hM2 : M2 T = cell := by rw [← hs]; simp [ht]
          rcases hkind ev (List.mem_cons_self _ _) ht with hop | hop
          · obtain ⟨c1, hc1, htext⟩ :=
              setError_canHold ev.env m (M ev.tid) hm (hset m hop)
            rw [hop] at hx
            rw [hx] at hc1
            injection hc1 with hc1
            left
            rw [hM2, hc1]
            exact htext
          · have hcell : cell = M T := by
              rw [hop] at hx
              simp only [Op.exec] at hx
              injection hx with hx
              rw [← hx, ht]
            rcases h with h | ⟨x, hx1, hx2, hx3⟩
            · left; rw [hM2, hcell]; exact h
            · rcases List.mem_cons.mp hx1 with hx1 | hx1
              · subst hx1
                rw [hop] at hx3
                cases hx3
              · exact Or.inr ⟨x, hx1, hx2, hx3⟩
        · have hM2 : M2 T = M T := hframe T (fun h1 => ht h1.symm)
          rcases h with h | ⟨x, hx1, hx2, hx3⟩
          · left; rw [hM2]; exact h
          · rcases List.mem_cons.mp hx1 with hx1 | hx1
            · subst hx1
              exact absurd hx2 ht
            · exact Or.inr ⟨x, hx1, hx2, hx3⟩

/-! ## The properties of the facility -/

/-- C1: for an existing slot (any classification, any buffer content) and a non-null format
whose rendered text is `m`, if `m` is shorter than the capacity, or it is not and the
reallocation succeeds, then `SDL_SetError` returns false and the text read from
`SDL_GetError` right after is exactly `m`. -/
theorem C1_setError_then_getError (env : Env) (e : SDL_error) (m : List Char)
    (hwf : e.str.length = e.len) (hm : ∀ c ∈ m, c ≠ NUL)
    (h : m.length < e.len ∨ (e.len ≤ m.length ∧ e.realloc_func = true ∧ env.grant = true)) :
    ∃ r, SDL_SetError env (some m) (some e) = some r ∧ r.ret = false ∧
      terminated (SDL_GetError r.tls) ∧ errorText r.tls = m := by
  rcases h with h | ⟨h1, h2, h3⟩
  · refine ⟨_, setError_in_place env e m (Or.inl h), rfl, ?_, ?_⟩
    · simp [SDL_GetError, SDL_GetErrBuf, terminated, vsnprintf_fits _ _ _ hwf h]
    · simp only [errorText, SDL_GetError, SDL_GetErrBuf, vsnprintf_fits _ _ _ hwf h]
      exact c_str_append_nul m _ hm
  · refine ⟨_, setError_grown env e m h1 h2 h3, rfl, ?_, ?_⟩
    · simp [SDL_GetError, SDL_GetErrBuf, terminated]
    · simp only [errorText, SDL_GetError, SDL_GetErrBuf]
      exact c_str_append_nul m [] hm

/-- C1 at a concrete input: an 11 character message set on a 7 byte slot that was
classified OutOfMemory, with the reallocation granted. -/
theorem C1_setError_then_getError_witness :
    ∃ r, SDL_SetError ⟨none, true, fun _ => NUL, false⟩ (some "hello world".toList)
        (some ⟨SDL_ErrorCodeOutOfMemory, "abcdef".toList ++ [NUL], 7, true⟩) = some r ∧
      r.ret = false ∧ terminated (SDL_GetError r.tls) ∧
      errorText r.tls = "hello world".toList :=
  C1_setError_then_getError ⟨none, true, fun _ => NUL, false⟩
    ⟨SDL_ErrorCodeOutOfMemory, "abcdef".toList ++ [NUL], 7, true⟩ "hello world".toList
    (by decide) (by decide) (Or.inr (by decide))

/-- C2: when the calling thread's slot exists or can be created, `SDL_OutOfMemory` returns
false and the text read from `SDL_GetError` right after is exactly "Out of memory", whatever
was stored before. -/
theorem C2_outOfMemory_then_getError (env : Env) (tls : Option SDL_error)
    (h : tls.isSome = true ∨ env.fresh.isSome = true) :
    (SDL_OutOfMemory env tls).2 = false ∧
      errorText (SDL_OutOfMemory env tls).1 = "Out of memory".toList := by
  cases tls with
  | some e => exact ⟨rfl, c_str_literal_oom⟩
  | none =>
    cases hf : env.fresh with
    | none => simp [hf] at h
    | some f =>
      have hs : SDL_OutOfMemory env none =
          (some { f with error := SDL_ErrorCodeOutOfMemory }, false) := by
        simp [SDL_OutOfMemory, SDL_GetErrBuf, hf]
      rw [hs]
      exact ⟨rfl, c_str_literal_oom⟩

/-- C2 at a concrete input: a slot holding the Generic message "boom". -/
theorem C2_outOfMemory_then_getError_witness :
    (SDL_OutOfMemory ⟨none, false, fun _ => NUL, false⟩
        (some ⟨SDL_ErrorCodeGeneric, "boom".toList ++ [NUL], 5, true⟩)).2 = false ∧
      errorText (SDL_OutOfMemory ⟨none, false, fun _ => NUL, false⟩
        (some ⟨SDL_ErrorCodeGeneric, "boom".toList ++ [NUL], 5, true⟩)).1
        = "Out of memory".toList :=
  C2_outOfMemory_then_getError ⟨none, false, fun _ => NUL, false⟩
    (some ⟨SDL_ErrorCodeGeneric, "boom".toList ++ [NUL], 5, true⟩) (Or.inl rfl)

/-- C3: in every per-thread state (no slot, or a slot of any classification) `SDL_ClearError`
returns true, the text read from `SDL_GetError` right after is empty, and a thread without a
slot still has none. -/
theorem C3_clearError_then_getError (tls : Option SDL_error) :
    (SDL_ClearError tls).2 = true ∧ errorText (SDL_ClearError tls).1 = [] ∧
      (tls = none → (SDL_ClearError tls).1 = none) := by
  cases tls with
  | none => exact ⟨rfl, c_str_literal_empty, fun _ => rfl⟩
  | some e => exact ⟨rfl, c_str_literal_empty, fun h => by cases h⟩

/-- C4: `SDL_SetError` with a null format completes, returns false and leaves the per-thread
state exactly as it was (no slot created; classification, buffer and capacity unchanged), so
`SDL_GetError` gives the same block before and after; nothing is logged. -/
theorem C4_setError_null_format (env : Env) (tls : Option SDL_error) :
    ∃ r, SDL_SetError env none tls = some r ∧ r.ret = false ∧ r.tls = tls ∧
      SDL_GetError r.tls = SDL_GetError tls ∧ r.log = none :=
  ⟨⟨tls, false, none⟩, rfl, rfl, rfl, rfl, rfl⟩

/-- C5: for a slot of capacity `c ≥ 1` and a non-null format whose rendered text `m` has
length at least `c`, if the reallocation function is null or its call fails, `SDL_SetError`
returns false, the slot keeps its capacity and its buffer (the old block, written in place),
the classification is Generic and the text read from `SDL_GetError` is exactly the first
`c - 1` characters of `m`. -/
theorem C5_growth_failure_truncates (env : Env) (e : SDL_error) (m : List Char)
    (hwf : e.str.length = e.len) (hcap : 1 ≤ e.len) (hm : ∀ c ∈ m, c ≠ NUL)
    (hlen : e.len ≤ m.length) (hfail : e.realloc_func = false ∨ env.grant = false) :
    ∃ r e1, SDL_SetError env (some m) (some e) = some r ∧ r.ret = false ∧ r.tls = some e1 ∧
      e1.len = e.len ∧ e1.str = store e.str (m.take (e.len - 1) ++ [NUL]) ∧
      e1.str.length = e.str.length ∧ e1.realloc_func = e.realloc_func ∧
      e1.error = SDL_ErrorCodeGeneric ∧ errorText r.tls = m.take (e.len - 1) := by
  have h0 : e.len ≠ 0 := by omega
  refine ⟨_, _, setError_in_place env e m (Or.inr hfail), rfl, rfl, rfl, ?_, ?_, rfl, rfl, ?_⟩
  · simp [SDL_vsnprintf, h0]
  · simp [vsnprintf_length]
  · simp only [errorText, SDL_GetError, SDL_GetErrBuf, vsnprintf_cut _ _ _ hwf hcap hlen]
    exact c_str_append_nul _ [] (fun c hc => hm c (List.mem_of_mem_take hc))

/-- C5 at a concrete input: "hello world" set on a 7 byte slot whose reallocation fails. -/
theorem C5_growth_failure_truncates_witness :
    ∃ r e1, SDL_SetError ⟨none, false, fun _ => NUL, false⟩ (some "hello world".toList)
        (some ⟨SDL_ErrorCodeNone, "abcdefg".toList, 7, true⟩) = some r ∧ r.ret = false ∧
      r.tls = some e1 ∧ e1.len = 7 ∧
      e1.str = store "abcdefg".toList ("hello world".toList.take (7 - 1) ++ [NUL]) ∧
      e1.str.length = "abcdefg".toList.length ∧ e1.realloc_func = true ∧
      e1.error = SDL_ErrorCodeGeneric ∧ errorText r.tls = "hello world".toList.take (7 - 1) :=
  C5_growth_failure_truncates ⟨none, false, fun _ => NUL, false⟩
    ⟨SDL_ErrorCodeNone, "abcdefg".toList, 7, true⟩ "hello world".toList
    (by decide) (by decide) (by decide) (by decide) (Or.inr rfl)

/-- C6: when the thread has no slot and get-or-create returns null, `SDL_SetError` with a
non-null format does not complete as a no-op: it writes the classification through the null
slot pointer. `SDL_OutOfMemory`, which checks the pointer, is the no-op returning false. -/
theorem C6_setError_null_slot (env : Env) (m : List Char) :
    SDL_SetError { env with fresh := none } (some m) none = none ∧
      SDL_OutOfMemory { env with fresh := none } none = (none, false) :=
  ⟨rfl, rfl⟩

/-- C7: from a fresh slot (classification None, a buffer of `len ≥ 1` bytes), every sequence
of operations with arbitrary reallocation outcomes completes and leaves a slot whose buffer
has `len ≥ 1` bytes; the block `SDL_GetError` returns is terminated, and under the Generic
classification the buffer holds a terminated string of length at most `len - 1`. -/
theorem C7_generic_buffer_terminated (e0 : SDL_error) (ops : List (Env × Op))
    (h0 : e0.error = SDL_ErrorCodeNone) (hwf : e0.str.length = e0.len) (hcap : 1 ≤ e0.len) :
    ∃ e, execAll ops (some e0) = some (some e) ∧ e.str.length = e.len ∧ 1 ≤ e.len ∧
      terminated (SDL_GetError (some e)) ∧
      (e.error = SDL_ErrorCodeGeneric →
        terminated e.str ∧ (errorText (some e)).length ≤ e.len - 1) := by
  obtain ⟨e, hrun, hlen, hc, ht⟩ :=
    execAll_slotOk ops e0 ⟨hwf, hcap, fun h => by rw [h0] at h; cases h⟩
  refine ⟨e, hrun, hlen, hc, ?_, ?_⟩
  · cases he : e.error with
    | SDL_ErrorCodeNone => simp [SDL_GetError, SDL_GetErrBuf, he, terminated]
    | SDL_ErrorCodeGeneric => simpa [SDL_GetError, SDL_GetErrBuf, he] using ht he
    | SDL_ErrorCodeOutOfMemory => simp [SDL_GetError, SDL_GetErrBuf, he, terminated]
  · intro he
    refine ⟨ht he, ?_⟩
    have := c_str_length_lt e.str (ht he)
    simp only [errorText, SDL_GetError, SDL_GetErrBuf, he]
    omega

/-- C7 at a concrete input: a fresh 4 byte slot, then a message that is cut (growth fails),
a clear, an out-of-memory report and a message that grows the buffer. -/
theorem C7_generic_buffer_terminated_witness :
    ∃ e, execAll
        [(⟨none, false, fun _ => NUL, false⟩, Op.SetError (some "hello".toList)),
         (⟨none, false, fun _ => NUL, false⟩, Op.ClearError),
         (⟨none, false, fun _ => NUL, false⟩, Op.OutOfMemory),
         (⟨none, true, fun _ => NUL, false⟩, Op.SetError (some "goodbye".toList)),
         (⟨none, true, fun _ => NUL, false⟩, Op.GetError)]
        (some ⟨SDL_ErrorCodeNone, "wxyz".toList, 4, true⟩) = some (some e) ∧
      e.str.length = e.len ∧ 1 ≤ e.len ∧ terminated (SDL_GetError (some e)) ∧
      (e.error = SDL_ErrorCodeGeneric →
        terminated e.str ∧ (errorText (some e)).length ≤ e.len - 1) :=
  C7_generic_buffer_terminated ⟨SDL_ErrorCodeNone, "wxyz".toList, 4, true⟩ _
    rfl (by decide) (by decide)

/-- C9, as the specification lists the transitions, fails: `SDL_SetError` on a slot
classified OutOfMemory makes it Generic, a change that is not among the listed ones. -/
theorem C9_listed_transitions_counterexample :
    (Op.SetError (some "x".toList)).exec ⟨none, false, fun _ => NUL, false⟩
        (some ⟨SDL_ErrorCodeOutOfMemory, "ab".toList ++ [NUL], 3, false⟩)
      = some (some ⟨SDL_ErrorCodeGeneric, "x".toList ++ [NUL] ++ [NUL], 3, false⟩) ∧
    SDL_ErrorCodeGeneric ≠ SDL_ErrorCodeOutOfMemory ∧
    ¬ listedTransition SDL_ErrorCodeOutOfMemory (Op.SetError (some "x".toList))
        SDL_ErrorCodeGeneric :=
  ⟨by decide, by decide, fun h => h⟩

/-- C9, amended: every operation on an existing slot completes, and the classification is
either unchanged or changes by one of: None or OutOfMemory to Generic via SetError with a
non-null format, None or Generic to OutOfMemory via OutOfMemory, Generic or OutOfMemory to
None via ClearError. Each of these changes does occur. -/
theorem C9_classification_transitions (env : Env) (e : SDL_error) (op : Op) :
    (∃ e1, op.exec env (some e) = some (some e1) ∧
      (e1.error = e.error ∨ codeTransition e.error op e1.error)) ∧
    (∀ c1, codeTransition e.error op c1 →
      ∃ e1, op.exec env (some e) = some (some e1) ∧ e1.error = c1) := by
  cases op with
  | SetError fmt =>
    cases fmt with
    | none =>
      refine ⟨⟨e, rfl, Or.inl rfl⟩, fun c1 h => ?_⟩
      cases he : e.error <;> cases c1 <;> simp [he, codeTransition] at h
    | some m =>
      obtain ⟨e1, hex, herr, -, -⟩ := setError_existing env e m
      refine ⟨⟨e1, hex, ?_⟩, fun c1 h => ⟨e1, hex, ?_⟩⟩
      · rw [herr]
        cases he : e.error
        · exact Or.inr trivial
        · exact Or.inl rfl
        · exact Or.inr trivial
      · rw [herr]
        cases he : e.error <;> cases c1 <;> simp [he, codeTransition] at h <;> rfl
  | GetError =>
    refine ⟨⟨e, rfl, Or.inl rfl⟩, fun c1 h => ?_⟩
    cases he : e.error <;> cases c1 <;> simp [he, codeTransition] at h
  | ClearError =>
    refine ⟨⟨{ e with error := SDL_ErrorCodeNone }, rfl, ?_⟩, fun c1 h =>
      ⟨{ e with error := SDL_ErrorCodeNone }, rfl, ?_⟩⟩
    · cases he : e.error
      · exact Or.inl rfl
      · exact Or.inr trivial
      · exact Or.inr trivial
    · cases he : e.error <;> cases c1 <;> simp [he, codeTransition] at h <;> rfl
  | OutOfMemory =>
    refine ⟨⟨{ e with error := SDL_ErrorCodeOutOfMemory }, rfl, ?_⟩, fun c1 h =>
      ⟨{ e with error := SDL_ErrorCodeOutOfMemory }, rfl, ?_⟩⟩
    · cases he : e.error
      · exact Or.inr trivial
      · exact Or.inr trivial
      · exact Or.inl rfl
    · cases he : e.error <;> cases c1 <;> simp [he, codeTransition] at h <;> rfl

/-- C10: every operation on an existing slot completes with a capacity at least the one
before. `SDL_SetError` with a non-null format whose rendered length `n` is at least the
capacity, when the reallocation succeeds, makes the capacity exactly `n + 1`, strictly more
than before; in every other case (`SDL_GetError`, `SDL_ClearError`, `SDL_OutOfMemory`, a null
format, a message that fits, a failed or absent reallocation) the capacity is unchanged. -/
theorem C10_capacity_only_grows (env : Env) (e : SDL_error) (op : Op) :
    ∃ e1, op.exec env (some e) = some (some e1) ∧ e.len ≤ e1.len ∧
      (∀ m, op = Op.SetError (some m) →
        e.len ≤ m.length ∧ e.realloc_func = true ∧ env.grant = true →
        e1.len = m.length + 1 ∧ e.len < e1.len) ∧
      ((∀ m, op = Op.SetError (some m) →
        ¬ (e.len ≤ m.length ∧ e.realloc_func = true ∧ env.grant = true)) →
        e1.len = e.len) := by
  cases op with
  | SetError fmt =>
    cases fmt with
    | none => exact ⟨e, rfl, le_refl _, (fun m h => by cases h), fun _ => rfl⟩
    | some m =>
      obtain ⟨e1, hex, -, hgrow, hkeep⟩ := setError_existing env e m
      refine ⟨e1, hex, ?_, ?_, ?_⟩
      · by_cases hg : e.len ≤ m.length ∧ e.realloc_func = true ∧ env.grant = true
        · have := hgrow hg
          omega
        · rw [hkeep hg]
      · intro m1 hm1 hg
        injection hm1 with hm1
        injection hm1 with hm1
        subst hm1
        have := hgrow hg
        omega
      · intro h
        exact hkeep (h m rfl)
  | GetError => exact ⟨e, rfl, le_refl _, (fun m h => by cases h), fun _ => rfl⟩
  | ClearError =>
    exact ⟨{ e with error := SDL_ErrorCodeNone }, rfl, le_refl _, (fun m h => by cases h),
      fun _ => rfl⟩
  | OutOfMemory =>
    exact ⟨{ e with error := SDL_ErrorCodeOutOfMemory }, rfl, le_refl _, (fun m h => by cases h),
      fun _ => rfl⟩

/-- C8, as stated, fails: threads 1 and 2 each own an 8 byte slot whose reallocation is
refused; after thread 1 sets `"thread-%d"` with 1 and thread 2 with 2, each reads back the
cut text "thread-", which is not the text with its own id. -/
theorem C8_truncated_texts_counterexample :
    ∃ M1, runThreads
        [⟨1, ⟨none, false, fun _ => NUL, false⟩, Op.SetError (some (render_thread_d 1))⟩,
         ⟨2, ⟨none, false, fun _ => NUL, false⟩, Op.SetError (some (render_thread_d 2))⟩,
         ⟨1, ⟨none, false, fun _ => NUL, false⟩, Op.GetError⟩,
         ⟨2, ⟨none, false, fun _ => NUL, false⟩, Op.GetError⟩]
        (fun _ => some ⟨SDL_ErrorCodeNone, [NUL, NUL, NUL, NUL, NUL, NUL, NUL, NUL], 8, true⟩)
        = some M1 ∧
      errorText (M1 1) = "thread-".toList ∧ errorText (M1 2) = "thread-".toList ∧
      errorText (M1 1) ≠ render_thread_d 1 ∧ errorText (M1 2) ≠ render_thread_d 2 :=
  ⟨_, rfl, by decide, by decide, by decide, by decide⟩

/-- C8, amended: with the per-thread state a map from thread identity to cell, an operation
of one thread leaves every other thread's cell unchanged, and after any interleaving each
thread's cell is what its own operations alone give. When, in an interleaving of the
operations of threads, every `SDL_SetError` call can hold its message (the caller's slot
exists or can be created, and the message fits its buffer or the reallocation succeeds),
and two distinct threads `A` and `B` only set `"thread-%d"` with their distinct ids `a` and
`b` and read, then the interleaving completes and each of the two that has set its message
reads back the text with its own id, which is not the other thread's message. -/
theorem C8_thread_isolation (M : Threads) (evs : List Event) :
    (∀ ev M1, stepThread ev M = some M1 → ∀ u, u ≠ ev.tid → M1 u = M u) ∧
    (∀ M1, runThreads evs M = some M1 ↔ ∀ t, execAll (ownOps t evs) (M t) = some (M1 t)) ∧
    (∀ (A B : Nat) (a b : Int), A ≠ B → a ≠ b →
      (∀ ev ∈ evs, ev.tid = A →
        ev.op = Op.SetError (some (render_thread_d a)) ∨ ev.op = Op.GetError) →
      (∀ ev ∈ evs, ev.tid = B →
        ev.op = Op.SetError (some (render_thread_d b)) ∨ ev.op = Op.GetError) →
      Admissible evs M →
      ∃ M1, runThreads evs M = some M1 ∧
        ((∃ ev ∈ evs, ev.tid = A ∧ ev.op = Op.SetError (some (render_thread_d a))) →
          errorText (M1 A) = render_thread_d a ∧ errorText (M1 A) ≠ render_thread_d b) ∧
        ((∃ ev ∈ evs, ev.tid = B ∧ ev.op = Op.SetError (some (render_thread_d b))) →
          errorText (M1 B) = render_thread_d b ∧ errorText (M1 B) ≠ render_thread_d a)) := by
  refine ⟨fun ev M1 h u hu => stepThread_frame ev M M1 h u hu,
    fun M1 => ⟨runThreads_own evs M M1, runThreads_of_own evs M M1⟩, ?_⟩
  intro A B a b _ hab hA hB hadm
  obtain ⟨M1, hM1⟩ := runThreads_completes evs M hadm
  refine ⟨M1, hM1, fun h => ?_, fun h => ?_⟩
  · have ht := own_text_after A _ (render_thread_d_chars a) evs M M1 hM1 hA hadm (Or.inr h)
    rw [ht]
    exact ⟨rfl, fun heq => hab (render_thread_d_injective a b heq)⟩
  · have ht := own_text_after B _ (render_thread_d_chars b) evs M M1 hM1 hB hadm (Or.inr h)
    rw [ht]
    exact ⟨rfl, fun heq => hab (render_thread_d_injective b a heq).symm⟩

/-- C8 at a concrete input: thread 1 owns a 16 byte slot without a reallocation function
(its message fits), thread 2 has no slot yet and gets a 4 byte one whose reallocation is
granted (its message grows the buffer); they set `"thread-%d"` with their ids 1 and 2 and
read, interleaved, and each reads back its own text. -/
theorem C8_thread_isolation_witness :
    ∃ M1, runThreads
        [⟨1, ⟨none, false, fun _ => NUL, false⟩, Op.SetError (some (render_thread_d 1))⟩,
         ⟨2, ⟨some ⟨SDL_ErrorCodeNone, [NUL, NUL, NUL, NUL], 4, true⟩, true, fun _ => NUL, false⟩,
            Op.SetError (some (render_thread_d 2))⟩,
         ⟨1, ⟨none, false, fun _ => NUL, false⟩, Op.GetError⟩,
         ⟨2, ⟨none, false, fun _ => NUL, false⟩, Op.GetError⟩]
        (fun t => if t = 1 then
          some ⟨SDL_ErrorCodeOutOfMemory, List.replicate 16 NUL, 16, false⟩ else none)
        = some M1 ∧
      errorText (M1 1) = "thread-1".toList ∧ errorText (M1 2) = "thread-2".toList := by
  obtain ⟨M1, hrun, hA, hB⟩ := (C8_thread_isolation
      (fun t => if t = 1 then
        some ⟨SDL_ErrorCodeOutOfMemory, List.replicate 16 NUL, 16, false⟩ else none)
      [⟨1, ⟨none, false, fun _ => NUL, false⟩, Op.SetError (some (render_thread_d 1))⟩,
       ⟨2, ⟨some ⟨SDL_ErrorCodeNone, [NUL, NUL, NUL, NUL], 4, true⟩, true, fun _ => NUL, false⟩,
          Op.SetError (some (render_thread_d 2))⟩,
       ⟨1, ⟨none, false, fun _ => NUL, false⟩, Op.GetError⟩,
       ⟨2, ⟨none, false, fun _ => NUL, false⟩, Op.GetError⟩]).2.2 1 2 1 2
      (by decide) (by decide)
      (by
        intro ev hev ht
        simp only [List.mem_cons, List.mem_singleton, List.not_mem_nil, or_false] at hev
        rcases hev with rfl | rfl | rfl | rfl
        · exact Or.inl rfl
        · exact absurd ht (by decide)
        · exact Or.inr rfl
        · exact absurd ht (by decide))
      (by
        intro ev hev ht
        simp only [List.mem_cons, List.mem_singleton, List.not_mem_nil, or_false] at hev
        rcases hev with rfl | rfl | rfl | rfl
        · exact absurd ht (by decide)
        · exact Or.inl rfl
        · exact absurd ht (by decide)
        · exact Or.inr rfl)
      (by
        refine And.intro (fun m hm => ?_) ?_
        · injection hm with hm
          injection hm with hm
          subst hm
          exact ⟨by decide, Or.inl (by decide)⟩
        show _ ∧ _
        refine And.intro (fun m hm => ?_) ?_
        · injection hm with hm
          injection hm with hm
          subst hm
          exact ⟨by decide, Or.inr ⟨rfl, rfl⟩⟩
        show _ ∧ _
        refine And.intro (fun m hm => by cases hm) ?_
        show _ ∧ _
        exact And.intro (fun m hm => by cases hm) trivial)
  refine ⟨M1, hrun, ?_, ?_⟩
  · have h := (hA ⟨_, List.mem_cons_self _ _, rfl, rfl⟩).1
    rw [h]
    decide
  · have h := (hB ⟨_, List.mem_cons_of_mem _ (List.mem_cons_self _ _), rfl, rfl⟩).1
    rw [h]
    decide

end SDL
